import Mathlib

/-!
Verification of the umap_cv pipeline core against its specification.

The Python sources are shallowly embedded: pure functions become Lean
functions over `String`, `List`, `ℚ` and `ℝ`; the SHA-256 hash is modelled
as an injective function of its input string, so a checksum is represented
by the canonical (pre-hash) data that the code serialises and hashes;
fallible code paths (uncaught Python exceptions) are modelled with
`Option`, `none` standing for an uncaught exception.
-/

namespace UmapCV

/-- A field value as it appears in an article record: either a scalar
string or a list of strings (`src/udim_cv/embed.py`, `calculate_field_checksum`
and `calculate_cross_similarity_internal` handle exactly these two shapes). -/
inductive Value where
  | s (v : String)
  | l (vs : List String)
deriving DecidableEq

/-- An article (item) is a Python dict from field name to value, modelled as
an association list with first-match lookup. -/
abbrev Article := List (String × Value)

/-- First-match association lookup (a Python dict has unique keys, so this
is dict access). -/
def alookup {β : Type} : List (String × β) → String → Option β
  | [], _ => none
  | kv :: rest, f => if kv.1 = f then some kv.2 else alookup rest f

/-- `article.get(field, '')`: dict lookup with the empty string as default. -/
def aget (a : Article) (f : String) : Value :=
  (alookup a f).getD (Value.s "")

/-- Python `sorted` on a list of strings (lexicographic order on code points). -/
def sortStrings (vs : List String) : List String :=
  List.insertionSort (fun a b : String => a ≤ b) vs

/-- The list-normalisation inside `calculate_field_checksum`
(`src/udim_cv/embed.py` lines 155-159): a list value becomes
`' '.join(sorted(v))` if the list is non-empty, else `''`; a scalar string
passes through `str` unchanged. -/
def normalizeValue : Value → String
  | .s v => v
  | .l vs => if vs = [] then "" else String.intercalate " " (sortStrings vs)

/-- A `(field, str(field_i), str(field_j))` tuple as built by
`calculate_field_checksum`. -/
abbrev Triple := String × String × String

/-- Python's lexicographic comparison of `(field, value_i, value_j)` tuples,
used by `field_values.sort()`. -/
def tripleLe (x y : Triple) : Prop :=
  x.1 < y.1 ∨ (x.1 = y.1 ∧ (x.2.1 < y.2.1 ∨ (x.2.1 = y.2.1 ∧ x.2.2 ≤ y.2.2)))

instance : DecidableRel tripleLe := fun x y => by
  unfold tripleLe; infer_instance

instance : IsTotal Triple tripleLe where
  total x y := by
    rcases lt_trichotomy x.1 y.1 with h | h | h
    · exact Or.inl (Or.inl h)
    · rcases lt_trichotomy x.2.1 y.2.1 with h2 | h2 | h2
      · exact Or.inl (Or.inr ⟨h, Or.inl h2⟩)
      · rcases le_total x.2.2 y.2.2 with h3 | h3
        · exact Or.inl (Or.inr ⟨h, Or.inr ⟨h2, h3⟩⟩)
        · exact Or.inr (Or.inr ⟨h.symm, Or.inr ⟨h2.symm, h3⟩⟩)
      · exact Or.inr (Or.inr ⟨h.symm, Or.inl h2⟩)
    · exact Or.inr (Or.inl h)

instance : IsTrans Triple tripleLe where
  trans x y z hxy hyz := by
    rcases hxy with h1 | ⟨e1, h1⟩
    · rcases hyz with h2 | ⟨e2, _⟩
      · exact Or.inl (h1.trans h2)
      · exact Or.inl (e2 ▸ h1)
    · rcases hyz with h2 | ⟨e2, h2⟩
      · exact Or.inl (e1 ▸ h2)
      · refine Or.inr ⟨e1.trans e2, ?_⟩
        rcases h1 with h1 | ⟨f1, h1⟩
        · rcases h2 with h2 | ⟨f2, _⟩
          · exact Or.inl (h1.trans h2)
          · exact Or.inl (f2 ▸ h1)
        · rcases h2 with h2 | ⟨f2, h2⟩
          · exact Or.inl (f1 ▸ h2)
          · exact Or.inr ⟨f1.trans f2, h1.trans h2⟩

instance : IsAntisymm Triple tripleLe where
  antisymm x y hxy hyx := by
    rcases hxy with h1 | ⟨e1, h1⟩
    · rcases hyx with h2 | ⟨e2, _⟩
      · exact absurd (h1.trans h2) (lt_irrefl _)
      · exact absurd h1 (e2 ▸ lt_irrefl _)
    · rcases hyx with h2 | ⟨e2, h2⟩
      · exact absurd h2 (e1 ▸ lt_irrefl _)
      · rcases h1 with h1 | ⟨f1, h1⟩
        · rcases h2 with h2 | ⟨f2, _⟩
          · exact absurd (h1.trans h2) (lt_irrefl _)
          · exact absurd h1 (f2 ▸ lt_irrefl _)
        · rcases h2 with h2 | ⟨f2, h2⟩
          · exact absurd h2 (f1 ▸ lt_irrefl _)
          · have hv : x.2.2 = y.2.2 := le_antisymm h1 h2
            have : x.2 = y.2 := Prod.ext f1 hv
            exact Prod.ext e1 this

/-- `calculate_field_checksum(data, i, j, fields)` from `src/udim_cv/embed.py`
(lines 136-171), modelled up to the final SHA-256: the function returns the
sorted list of `(field, str(field_i), str(field_j))` tuples whose canonical
JSON serialisation the code hashes.  `json.dumps` and SHA-256 are injective
on this data, so two checksums are equal iff these lists are equal. -/
def calculate_field_checksum (data : List Article) (i j : ℕ)
    (fields : List String) : List Triple :=
  List.insertionSort tripleLe
    (fields.map fun f =>
      (f, normalizeValue (aget (data.getD i []) f),
          normalizeValue (aget (data.getD j []) f)))

/-- A rational field weight (`weights` dict entries). -/
abbrev Weights := List (String × ℚ)

/-- Comparison of `(field_name, value)` pairs by field name, as used by
Python's `sorted(relevant_fields.items())` (dict keys are distinct, so the
value component never takes part in the comparison). -/
def pairLe (x y : String × Value) : Prop := x.1 ≤ y.1

instance : DecidableRel pairLe := fun x y => by
  unfold pairLe; infer_instance

/-- `calculate_article_checksum(article, weights)` from
`src/latent_portfolio/utils.py` (lines 313-334), modelled up to the final
SHA-256: the subset of fields with positive weight is collected (via
`article.get(k, '')`), sorted by field name, and the resulting list is what
the code serialises and hashes.  SHA-256 composed with `json.dumps` is
injective on this list, so checksum equality is equality of these lists. -/
def calculate_article_checksum (a : Article) (weights : Weights) :
    List (String × Value) :=
  List.insertionSort pairLe
    ((weights.filter fun kv => 0 < kv.2).map fun kv => (kv.1, aget a kv.1))

/-! ### Cache gate (`should_skip_regeneration`, `src/latent_portfolio/utils.py` 361-429) -/

/-- One article entry of a previously written embeddings file, as far as the
cache gate inspects it: its `checksum` entry (`article.get('checksum', '')`)
and the set of keys present on it (used for the `{method}_{dim}d` lookup). -/
structure StoredArticle where
  checksum : String
  keys : List String
deriving DecidableEq, Inhabited

/-- A parsed embeddings file: `articles` is `none` when the `'articles'` key
is absent; `reduction_method` defaults to `[]` via `.get('reduction_method', [])`. -/
structure ExistingData where
  articles : Option (List StoredArticle)
  reduction_method : List String
deriving DecidableEq

/-- The state of the output file on disk, in the WELL-FORMED view of the
gate: missing, not parseable as JSON at all (`json.JSONDecodeError`, caught
by the function's `except` clause), or parsed into the expected structure.
A file whose content parses as JSON but does not have the expected shape
(non-dict top level, non-sized `articles` value, non-dict article entries)
is not representable in this view; that general case — including the
UNCAUGHT `TypeError`/`AttributeError` it raises in the source — is modelled
by `Json` and `should_skip_regeneration_py` below. -/
inductive FileState where
  | missing
  | malformed
  | parsed (d : ExistingData)

/-- The per-article checksum comparison loop of `should_skip_regeneration`
(lines 391-396): walks the stored articles, comparing each stored checksum to
the freshly computed one at the same index, stopping at the first mismatch.
Returns `none` for the uncaught `IndexError` Python would raise if the fresh
checksum list runs out before a mismatch is found. -/
def checksumsLoop : List StoredArticle → List String → Option Bool
  | [], _ => some true
  | a :: rest, c :: cs => if a.checksum ≠ c then some false else checksumsLoop rest cs
  | _ :: _, [] => none

/-- Python `set(xs) == set(ys)` on string lists. -/
def listSetEq (xs ys : List String) : Bool :=
  (xs.all fun x => decide (x ∈ ys)) && (ys.all fun y => decide (y ∈ xs))

/-- The `f"{method}_{dim}d"` key. -/
def mkKey (method : String) (dim : ℕ) : String :=
  method ++ "_" ++ toString dim ++ "d"

/-- The dimension check of `should_skip_regeneration` (lines 404-413): every
requested `{method}_{dim}d` key must be present on the FIRST stored article;
with an empty stored article list the check is skipped and stays true. -/
def dimsMatch (arts : List StoredArticle) (methods : List String)
    (dimensions : List ℕ) : Bool :=
  match arts with
  | [] => true
  | a0 :: _ => methods.all fun m => dimensions.all fun d => decide (mkKey m d ∈ a0.keys)

/-- `should_skip_regeneration` from `src/latent_portfolio/utils.py`
(lines 361-429).  `nDataValues` stands for `len(data_values)` (the only use
the function makes of `data_values`).  The result is `none` when Python
would raise an uncaught exception, `some b` when it returns `b`. -/
def should_skip_regeneration (file : FileState) (nDataValues : ℕ)
    (article_checksums : List String) (methods : List String)
    (dimensions : List ℕ) : Option Bool :=
  match file with
  | .missing => some false
  | .malformed => some false
  | .parsed d =>
    match d.articles with
    | none => some false
    | some arts =>
      if arts.length ≠ nDataValues then some false
      else
        match checksumsLoop arts article_checksums with
        | none => none
        | some cm =>
          some (cm && listSetEq d.reduction_method methods
                   && dimsMatch arts methods dimensions)

/-! ### Cache gate over arbitrary parsed JSON

`json.load` can return ANY JSON value; the function body then applies
Python operations (`in`, `[...]`, `len`, iteration, `.get`, `set(...)`) to
it.  Its `except` clause (line 427) catches only `json.JSONDecodeError` and
`KeyError`; a `TypeError`/`AttributeError`/`IndexError` raised by those
operations on a structurally unexpected value propagates and kills the run.
The model below embeds each operation with Python's semantics on JSON
values; `PyErr.keyErr` is the caught `KeyError`, `PyErr.uncaught` the
uncaught exceptions. -/

/-- A parsed JSON value (`json.load` result). -/
inductive Json where
  | null
  | bool (b : Bool)
  | num (q : ℚ)
  | str (s : String)
  | arr (elems : List Json)
  | obj (fields : List (String × Json))

/-- The two classes of Python exception relevant to the gate: `KeyError`
(caught by the `except` clause, line 427) and the uncaught ones
(`TypeError`, `AttributeError`, `IndexError`). -/
inductive PyErr where
  | keyErr
  | uncaught

/-- Python substring test `sub in s`. -/
def pyStrContains (s sub : String) : Bool :=
  s.data.tails.any fun t => sub.data.isPrefixOf t

/-- Python `==` between a JSON value and a Python string: true iff the
value is that string (no other JSON value compares equal to a string). -/
def pyEqStr (j : Json) (s : String) : Bool :=
  match j with
  | .str v => v == s
  | _ => false

/-- Python `==` between two hashable JSON values (the only ones a `set` can
hold): strings by content, numbers by value, `True == 1` and `False == 0`,
`None` only to itself. -/
def pyEqHashable : Json → Json → Bool
  | .str a, .str b => a == b
  | .num a, .num b => a == b
  | .bool a, .bool b => a == b
  | .bool a, .num b => (if a then (1 : ℚ) else 0) == b
  | .num a, .bool b => a == (if b then (1 : ℚ) else 0)
  | .null, .null => true
  | _, _ => false

/-- Python `key in j` for a JSON value: key membership for a dict, element
equality (Python `==`) for a list — a JSON element equals the Python string
`key` iff it is that string — substring test for a string; `TypeError:
argument is not iterable` (`none`) for numbers, booleans and null. -/
def jsonContains (j : Json) (key : String) : Option Bool :=
  match j with
  | .obj kvs => some (alookup kvs key).isSome
  | .arr es => some (es.any fun e => pyEqStr e key)
  | .str s => some (pyStrContains s key)
  | _ => none

/-- Python `len(j)`: length for a list or string, number of keys for a
dict; `TypeError` (`none`) otherwise. -/
def jsonLen (j : Json) : Option ℕ :=
  match j with
  | .arr es => some es.length
  | .str s => some s.length
  | .obj kvs => some kvs.length
  | _ => none

/-- Python `for x in j`: the elements of a list, the 1-character strings of
a string, the keys of a dict; `TypeError` (`none`) otherwise. -/
def jsonIter (j : Json) : Option (List Json) :=
  match j with
  | .arr es => some es
  | .str s => some (s.data.map fun c => Json.str (String.mk [c]))
  | .obj kvs => some (kvs.map fun kv => Json.str kv.1)
  | _ => none

/-- Python `j[0]` as used by the dimension check (only reached when
`len(j) > 0`): first element of a list, first character of a string,
`KeyError` for a dict (its keys are strings, never the integer `0`),
`TypeError` otherwise. -/
def jsonIndexZero : Json → Except PyErr Json
  | .arr (e :: _) => .ok e
  | .arr [] => .error .uncaught
  | .str s =>
    match s.data with
    | c :: _ => .ok (.str (String.mk [c]))
    | [] => .error .uncaught
  | .obj _ => .error .keyErr
  | _ => .error .uncaught

/-- Python `set(j)`: the elements of a list (`TypeError` if any element is
unhashable, i.e. itself a list or dict), the 1-character strings of a
string, the keys of a dict; `TypeError` (`none`) for non-iterables.
Duplicates need not be removed: the result is only used through the
membership-based set equality below. -/
def jsonSetElems (j : Json) : Option (List Json) :=
  match j with
  | .arr es =>
    if es.any fun e =>
        match e with
        | .arr _ => true
        | .obj _ => true
        | _ => false
      then none
    else some es
  | .str s => some (s.data.map fun c => Json.str (String.mk [c]))
  | .obj kvs => some (kvs.map fun kv => Json.str kv.1)
  | _ => none

/-- Python set equality on the collected (hashable) elements: mutual
inclusion under Python `==`. -/
def jsonSetEq (xs ys : List Json) : Bool :=
  (xs.all fun x => ys.any fun y => pyEqHashable x y)
    && (ys.all fun y => xs.any fun x => pyEqHashable x y)

/-- The checksum comparison loop (lines 392-396) over raw JSON article
entries: for each entry, `article.get('checksum', '')` is evaluated FIRST —
an uncaught `AttributeError` unless the entry is a dict — then compared to
`article_checksums[i]` (an uncaught `IndexError` when the fresh list is
exhausted); a stored value equals the fresh Python string only if it is
that string; the loop breaks at the first mismatch, so entries after a
mismatch are never touched. -/
def checksumsLoopPy : List Json → List String → Except PyErr Bool
  | [], _ => .ok true
  | a :: rest, cks =>
    match a with
    | .obj kvs =>
      match cks with
      | [] => .error .uncaught
      | c :: cs =>
        if pyEqStr ((alookup kvs "checksum").getD (.str "")) c then
          checksumsLoopPy rest cs
        else .ok false
    | _ => .error .uncaught

/-- The dimension check (lines 404-413) over the raw `articles` value: skipped
when `len(articles) = 0` or when no `{method}_{dim}d` key is ever formed
(empty `methods` or `dimensions`); otherwise `articles[0]` is evaluated and
each key is tested with `in`.  A `TypeError` from `in` depends only on
`articles[0]` (not on the key), so the break-on-first-missing-key order
cannot mask it: testing the first key decides it and the remaining tests
reduce to the plain conjunction. -/
def dimsMatchPy (artsJson : Json) (methods : List String)
    (dimensions : List ℕ) : Except PyErr Bool :=
  match jsonLen artsJson with
  | none => .error .uncaught
  | some 0 => .ok true
  | some (_ + 1) =>
    match methods, dimensions with
    | [], _ => .ok true
    | _, [] => .ok true
    | m0 :: _, d0 :: _ =>
      match jsonIndexZero artsJson with
      | .error e => .error e
      | .ok first =>
        match jsonContains first (mkKey m0 d0) with
        | none => .error .uncaught
        | some _ =>
          .ok (methods.all fun m => dimensions.all fun d =>
            (jsonContains first (mkKey m d)).getD false)

/-- The output file for the JSON-level view: missing, not decodable as JSON
(`json.JSONDecodeError`), or decoded into an arbitrary JSON value. -/
inductive JsonFileState where
  | missing
  | undecodable
  | parsed (j : Json)

/-- `should_skip_regeneration` (`src/latent_portfolio/utils.py` 361-429)
over an arbitrary decoded JSON value, following the source order:
`'articles' not in existing_data` (short-circuiting the `or`), then
`existing_data['articles']` and its `len`, the checksum loop, then
`set(existing_data.get('reduction_method', []))` (evaluated even when the
checksums already mismatched), then the dimension check.  `some b` is a
normal return, `none` an uncaught exception escaping the function; a
`KeyError` is caught by the `except` clause and returns `false`. -/
def should_skip_regeneration_py (file : JsonFileState) (nDataValues : ℕ)
    (article_checksums : List String) (methods : List String)
    (dimensions : List ℕ) : Option Bool :=
  match file with
  | .missing => some false
  | .undecodable => some false
  | .parsed j =>
    match jsonContains j "articles" with
    | none => none
    | some false => some false
    | some true =>
      match j with
      | .obj kvs =>
        match alookup kvs "articles" with
        | none => some false
        | some artsJson =>
          match jsonLen artsJson with
          | none => none
          | some la =>
            if la ≠ nDataValues then some false
            else
              match jsonIter artsJson with
              | none => none
              | some artsList =>
                match checksumsLoopPy artsList article_checksums with
                | .error .uncaught => none
                | .error .keyErr => some false
                | .ok cm =>
                  match jsonSetElems
                      ((alookup kvs "reduction_method").getD (.arr [])) with
                  | none => none
                  | some exMethods =>
                    match dimsMatchPy artsJson methods dimensions with
                    | .error .uncaught => none
                    | .error .keyErr => some false
                    | .ok dm =>
                      some (cm && jsonSetEq exMethods (methods.map Json.str)
                               && dm)
      | _ => none

/-! ### Field combination (`main`, `src/udim_cv/process.py` 599-614 and
`src/latent_portfolio/process.py` 285-290) -/

/-- `sum(weights.values())`. -/
def total_weight (weights : Weights) : ℚ :=
  (weights.map fun kv => kv.2).sum

/-- Pointwise sum of two equal-length vectors (numpy `+=` on matrices,
restricted to one row). -/
def zipAdd (xs ys : List ℚ) : List ℚ := List.zipWith (· + ·) xs ys

/-- The weighted-average step of `main`: starting from a zero vector, add
`weight * emb[field]` for every field with positive weight, then divide each
component by `sum(weights.values())`.  `emb` maps a field name to the row of
its embedding matrix for one fixed item.  There is NO guard anywhere in
either `main` against `total_weight = 0`: the division is performed
unconditionally (numpy turns `0/0` into NaN with a warning; in this total
model the division by zero yields `0`). -/
def combine_embeddings (weights : Weights) (emb : String → List ℚ)
    (dim : ℕ) : List ℚ :=
  ((weights.filter fun kv => 0 < kv.2).foldl
      (fun acc kv => zipAdd acc ((emb kv.1).map fun x => kv.2 * x))
      (List.replicate dim (0 : ℚ))).map
    fun x => x / total_weight weights

/-! ### Cross-similarity normalisation (`main`, `src/udim_cv/process.py`
715-721 and `src/latent_portfolio/process.py` 396-403) -/

/-- The `1e-8` epsilon guard of the normalisation. -/
def eps8 : ℚ := 1 / 100000000

/-- `np.min` of a non-empty list (`0` as junk value for the empty list,
where numpy would raise). -/
def listMin : List ℚ → ℚ
  | [] => 0
  | x :: xs => xs.foldl min x

/-- `np.max` of a non-empty list. -/
def listMax : List ℚ → ℚ
  | [] => 0
  | x :: xs => xs.foldl max x

/-- The per-field column normalisation
`2 * (cross_sims - np.min(...)) / (np.ptp(...) + 1e-8)` (applied by the code
with `axis=0`, i.e. independently to each field's column of raw scores;
`np.ptp` is `max - min`).  `scores` is one field's column over all links. -/
def normalize_scores (scores : List ℚ) : List ℚ :=
  scores.map fun x =>
    2 * (x - listMin scores) / (listMax scores - listMin scores + eps8)

/-! ### Connector geometry (`src/udim_cv/shapes.py` 5-95)

numpy float arrays are modelled as real-valued vectors `ℕ → ℝ` (coordinate
`a` of vector `v` is `v a`; coordinates at or beyond the array's length are
irrelevant junk).  Real division by zero is total in Lean (`x / 0 = 0`)
where numpy would emit NaN/inf with a warning; no claim below depends on
such a coordinate. -/

/-- A numpy float vector. -/
abbrev RVec := ℕ → ℝ

/-- `np.linalg.norm` of a `d`-dimensional vector. -/
noncomputable def vnorm (d : ℕ) (v : RVec) : ℝ :=
  Real.sqrt (∑ a ∈ Finset.range d, v a ^ 2)

/-- `np.dot` of two `d`-dimensional vectors. -/
noncomputable def vdot (d : ℕ) (u v : RVec) : ℝ :=
  ∑ a ∈ Finset.range d, u a * v a

/-- The two-point interpolation `(1 - t) * p0 + t * p1` of `subdivide_curve`. -/
noncomputable def midLerp (t : ℝ) (p0 p1 : RVec) : RVec :=
  fun a => (1 - t) * p0 a + t * p1 a

/-- The intermediate-point loop of `subdivide_curve`
(`src/udim_cv/shapes.py` 76-90): for every consecutive control-point pair
`(p0, p1)` emit the two interpolated points at `t = 0.25` and `t = 0.75`. -/
noncomputable def subdivideMids : List RVec → List RVec
  | p0 :: p1 :: rest =>
      midLerp (1/4) p0 p1 :: midLerp (3/4) p0 p1 :: subdivideMids (p1 :: rest)
  | _ => []

/-- `subdivide_curve(control_points)` from `src/udim_cv/shapes.py` (54-95):
fewer than 2 points are returned unchanged; otherwise the result is the
first point, then the two interpolated points for every consecutive pair,
then the last point.  (The docstring advertises an output of shape
`(2*n-1, 3)`; the code in fact produces `2*n` points.) -/
noncomputable def subdivide_curve : List RVec → List RVec
  | [] => []
  | [p] => [p]
  | p0 :: p1 :: rest =>
      p0 :: (subdivideMids (p0 :: p1 :: rest) ++ [(p1 :: rest).getLastD p1])

/-- The bend ("center") control point of `create_connecting_arc`
(`src/udim_cv/shapes.py` 31-41): the midpoint of `A` and `B` scaled by
`0.4 + 0.35 * max(dot(A,B), 0) / (|A| * |B|)`.  The locals `distance` and
`angle` of the Python code are dead (never used for the output) and are
omitted. -/
noncomputable def arcCenter (A B : RVec) : RVec :=
  let proximity_factor := max (vdot 3 A B) 0 / (vnorm 3 A * vnorm 3 B)
  let deform_factor := (0.4 : ℝ) + (0.75 - 0.4) * proximity_factor
  fun a => (A a + B a) / 2 * deform_factor

/-- `create_connecting_arc(point_a, point_b, steps)` from
`src/udim_cv/shapes.py` (5-51): start from the control polygon
`[A, center, B]` and apply `steps` rounds of `subdivide_curve`. -/
noncomputable def create_connecting_arc (A B : RVec) (steps : ℕ) : List RVec :=
  subdivide_curve^[steps] [A, arcCenter A B, B]

/-! ### Cross-similarity engine (`src/udim_cv/embed.py` 187-206) and the
link normalisation lookup (`main`, `src/latent_portfolio/process.py`
382-403 / `src/udim_cv/process.py` 701-721) -/

/-- `min(...)` of a non-empty real list. -/
noncomputable def listMinR : List ℝ → ℝ
  | [] => 0
  | x :: xs => xs.foldl min x

/-- `max(...)` of a non-empty real list. -/
noncomputable def listMaxR : List ℝ → ℝ
  | [] => 0
  | x :: xs => xs.foldl max x

/-- Inputs of `relax_clusters` other than the point array: item and
dimension counts, the DBSCAN labels, the five tuning parameters, and the
random draws (see the section comment). -/
structure RelaxParams where
  n : ℕ
  d : ℕ
  labels : ℕ → ℤ
  minDist : ℝ
  dispH : ℝ
  dispV : ℝ
  vdf : ℝ
  rf : ℝ
  randDir : ℕ → RVec
  randJit : ℕ → RVec
  shuf : ℤ → ℕ → ℕ

/-- `np.where(labels == cluster_id)[0]`: the members of cluster `ℓ` in
ascending index order. -/
def clusterMembers (P : RelaxParams) (ℓ : ℤ) : List ℕ :=
  (List.range P.n).filter fun i => P.labels i = ℓ

/-- `np.mean(cluster_points, axis=0)`. -/
noncomputable def clusterCenter (pts : ℕ → RVec)
    (ms : List ℕ) : RVec :=
  fun a => (ms.map fun i => pts i a).sum / ms.length

/-- The first-pass body of `relax_clusters` (lines 99-117) for one member:
from the member's position `x` and the cluster centre, compute the (unit,
possibly jittered) direction and the distance scalar that the second pass
multiplies it by.  When the member coincides with the centre (distance
`< 1e-6`) the code substitutes the random draw `randDir idx` AND overwrites
`distance_from_center` with that draw's norm. -/
noncomputable def naturalDisp (P : RelaxParams) (center : RVec) (idx : ℕ)
    (x : RVec) : RVec × ℝ :=
  let dir0 : RVec := fun a => x a - center a
  let dist0 := vnorm P.d dir0
  let base : RVec × ℝ :=
    if dist0 < 1 / 1000000 then (P.randDir idx, vnorm P.d (P.randDir idx))
    else (dir0, dist0)
  let dirU : RVec := fun a => base.1 a / base.2
  let dir2 : RVec :=
    if 0 < P.rf then
      let w : RVec := fun a => dirU a + P.randJit idx a * P.rf
      fun a => w a / vnorm P.d w
    else dirU
  (dir2, base.2)

/-- A member's natural vertical displacement
`direction[1] * min_distance * displacement_amount_vertical`. -/
def natY (P : RelaxParams) (nd : RVec × ℝ) : ℝ :=
  nd.1 1 * P.minDist * P.dispV

/-- The natural vertical displacements of all members of cluster `ℓ`
(lines 123-124). -/
noncomputable def clusterYs (P : RelaxParams) (pts : ℕ → RVec) (ℓ : ℤ) :
    List ℝ :=
  (clusterMembers P ℓ).map fun i =>
    natY P (naturalDisp P (clusterCenter pts (clusterMembers P ℓ)) i (pts i))

/-- The (shuffled) evenly spaced vertical target read by member position `p`
of cluster `ℓ`: entry `shuf ℓ p` of
`np.linspace(y_min, y_max, len(cluster))` (lines 125-133). -/
noncomputable def evenPositionAt (P : RelaxParams) (pts : ℕ → RVec) (ℓ : ℤ)
    (p : ℕ) : ℝ :=
  let ys := clusterYs P pts ℓ
  let k := (clusterMembers P ℓ).length
  listMinR ys + (listMaxR ys - listMinR ys) * (P.shuf ℓ p) / (k - 1)

/-- The second-pass displacement of one member (lines 141-162): for 2D both
axes use the horizontal factor; otherwise axis 0 and axis 2 use the
horizontal factor, axis 1 the vertical one - blended with the even target
when `vertical_distribution_factor > 0` and the layout is at least 3D - and
any further axis keeps the `np.zeros` value. -/
noncomputable def displacement (P : RelaxParams) (pts : ℕ → RVec) (ℓ : ℤ)
    (idx : ℕ) : RVec :=
  let ms := clusterMembers P ℓ
  let nd := naturalDisp P (clusterCenter pts ms) idx (pts idx)
  if P.d = 2 then fun a => nd.1 a * P.minDist * P.dispH
  else fun a =>
    if a = 0 then nd.1 0 * P.minDist * P.dispH
    else if a = 1 then
      if 0 < P.vdf ∧ 3 ≤ P.d then
        (1 - P.vdf) * natY P nd + P.vdf * evenPositionAt P pts ℓ (ms.indexOf idx)
      else natY P nd
    else if a = 2 then nd.1 2 * P.minDist * P.dispH
    else 0

/-- The per-cluster body of `relax_clusters` (lines 82-164): clusters with
fewer than 2 members are skipped; otherwise every member is rewritten to
`cluster_center + direction * distance_from_center + displacement` and every
non-member keeps its value. -/
noncomputable def processCluster (P : RelaxParams) (pts : ℕ → RVec)
    (ℓ : ℤ) (i : ℕ) : RVec :=
  let ms := clusterMembers P ℓ
  if ms.length < 2 then pts i
  else if i ∈ ms then
    let center := clusterCenter pts ms
    let nd := naturalDisp P center i (pts i)
    fun a => center a + nd.1 a * nd.2 + displacement P pts ℓ i a
  else pts i

/-- `relax_clusters(points, ...)` from `src/latent_portfolio/utils.py`
(28-169): arrays with fewer than 2 points are returned unchanged; otherwise
every cluster is processed in turn. -/
noncomputable def relax_clusters (P : RelaxParams) (pts : ℕ → RVec) :
    ℕ → RVec :=
  if P.n < 2 then pts
  else (((List.range P.n).map P.labels).dedup).foldl (processCluster P) pts

/-! ## Helper lemmas -/

/-- A total, transitive, antisymmetric decidable order sorts any two
permuted lists to the same list. -/
theorem insertionSort_perm_congr {α : Type} (r : α → α → Prop) [DecidableRel r]
    [IsTotal α r] [IsTrans α r] [IsAntisymm α r] {l₁ l₂ : List α}
    (h : l₁.Perm l₂) :
    List.insertionSort r l₁ = List.insertionSort r l₂ :=
  List.eq_of_perm_of_sorted
    ((List.perm_insertionSort r l₁).trans (h.trans (List.perm_insertionSort r l₂).symm))
    (List.sorted_insertionSort r l₁) (List.sorted_insertionSort r l₂)

theorem getLast?_cons_eq {α : Type} :
    ∀ (l : List α) (a : α), (a :: l).getLast? = some (l.getLastD a)
  | [], _ => rfl
  | b :: t, a => by
    rw [List.getLast?_cons_cons, getLast?_cons_eq t b, List.getLastD_cons]

/-- `subdivide_curve` keeps the first point. -/
theorem subdivide_curve_head? :
    ∀ l : List RVec, (subdivide_curve l).head? = l.head?
  | [] => rfl
  | [_] => rfl
  | _ :: _ :: _ => rfl

/-- `subdivide_curve` keeps the last point. -/
theorem subdivide_curve_getLast? :
    ∀ l : List RVec, (subdivide_curve l).getLast? = l.getLast?
  | [] => rfl
  | [_] => rfl
  | p0 :: p1 :: rest => by
    show (p0 :: (subdivideMids (p0 :: p1 :: rest) ++ [(p1 :: rest).getLastD p1])).getLast?
        = (p0 :: p1 :: rest).getLast?
    rw [show p0 :: (subdivideMids (p0 :: p1 :: rest) ++ [(p1 :: rest).getLastD p1])
          = (p0 :: subdivideMids (p0 :: p1 :: rest)) ++ [(p1 :: rest).getLastD p1]
        from rfl,
      List.getLast?_concat, List.getLastD_cons, List.getLast?_cons_cons,
      getLast?_cons_eq rest p1]

/-! ## C1 -/

/-- C1: for every pair of 3D points `A`, `B` and every subdivision count
`k ≥ 0`, the vertex sequence returned by `create_connecting_arc A B k`
starts exactly at `A` and ends exactly at `B`. -/
theorem create_connecting_arc_endpoints (A B : RVec) (k : ℕ) :
    (create_connecting_arc A B k).head? = some A ∧
    (create_connecting_arc A B k).getLast? = some B := by
  unfold create_connecting_arc
  induction k with
  | zero => exact ⟨rfl, rfl⟩
  | succ n ih =>
    rw [Function.iterate_succ_apply', subdivide_curve_head?, subdivide_curve_getLast?]
    exact ih

/-! ## C3 -/

theorem subdivideMids_eq_zip :
    ∀ l : List RVec,
      subdivideMids l = (l.zip l.tail).flatMap fun pq =>
        [midLerp (1/4) pq.1 pq.2, midLerp (3/4) pq.1 pq.2]
  | [] => rfl
  | [_] => rfl
  | p :: q :: rest => by
    show midLerp (1/4) p q :: midLerp (3/4) p q :: subdivideMids (q :: rest) = _
    rw [subdivideMids_eq_zip (q :: rest)]
    rfl

theorem subdivideMids_length :
    ∀ l : List RVec, (subdivideMids l).length = 2 * (l.length - 1)
  | [] => rfl
  | [_] => rfl
  | p :: q :: rest => by
    show (midLerp (1/4) p q :: midLerp (3/4) p q :: subdivideMids (q :: rest)).length = _
    simp only [List.length_cons, subdivideMids_length (q :: rest)]
    omega

/-- C3 (amended): one round of `subdivide_curve` on `n ≥ 2` control points
keeps the first point, emits for every consecutive pair `(p0, p1)` the two
interpolated points `lerp(p0,p1,0.25)` and `lerp(p0,p1,0.75)` (interior
original control points are dropped), appends the last point, and the
output has exactly `2 * n` points. -/
theorem subdivide_curve_round (l : List RVec) (h : 2 ≤ l.length) :
    subdivide_curve l
      = l.headI :: (((l.zip l.tail).flatMap fun pq =>
          [midLerp (1/4) pq.1 pq.2, midLerp (3/4) pq.1 pq.2]) ++ [l.getLastD l.headI])
    ∧ (subdivide_curve l).length = 2 * l.length := by
  obtain ⟨p0, l', rfl⟩ : ∃ p0 l', l = p0 :: l' := by
    cases l with
    | nil => simp at h
    | cons a t => exact ⟨a, t, rfl⟩
  obtain ⟨p1, rest, rfl⟩ : ∃ p1 rest, l' = p1 :: rest := by
    cases l' with
    | nil => simp at h
    | cons a t => exact ⟨a, t, rfl⟩
  constructor
  · show p0 :: (subdivideMids (p0 :: p1 :: rest) ++ [(p1 :: rest).getLastD p1]) = _
    have hd : (p1 :: rest).getLastD p1
        = (p0 :: p1 :: rest).getLastD ((p0 :: p1 :: rest).headI) := by
      show (p1 :: rest).getLastD p1 = (p0 :: p1 :: rest).getLastD p0
      rw [List.getLastD_cons, List.getLastD_cons, List.getLastD_cons]
    rw [subdivideMids_eq_zip, hd]
    rfl
  · show (p0 :: (subdivideMids (p0 :: p1 :: rest) ++ [(p1 :: rest).getLastD p1])).length = _
    simp [subdivideMids_length]
    omega

/-- Witness for `subdivide_curve_round` at a concrete 2-point input. -/
theorem subdivide_curve_round_witness :
    2 ≤ ([fun _ => 0, fun _ => 1] : List RVec).length ∧
    (subdivide_curve [fun _ => 0, fun _ => 1]
      = ([fun _ => 0, fun _ => 1] : List RVec).headI ::
          (((([fun _ => 0, fun _ => 1] : List RVec).zip
              ([fun _ => 0, fun _ => 1] : List RVec).tail).flatMap fun pq =>
            [midLerp (1/4) pq.1 pq.2, midLerp (3/4) pq.1 pq.2]) ++
            [([fun _ => 0, fun _ => 1] : List RVec).getLastD
              ([fun _ => 0, fun _ => 1] : List RVec).headI])
      ∧ (subdivide_curve [fun _ => 0, fun _ => 1]).length
        = 2 * ([fun _ => 0, fun _ => 1] : List RVec).length) :=
  ⟨by simp, subdivide_curve_round _ (by simp)⟩

/-- The three concrete control points of the C3 counterexample. -/
def cexP : RVec := fun _ => 0

/-- Second counterexample control point: `(4, 0, 0, ...)`. -/
def cexQ : RVec := fun a => if a = 0 then 4 else 0

/-- Third counterexample control point: `(0, 4, 0, ...)`. -/
def cexR : RVec := fun a => if a = 1 then 4 else 0

/-- C3 (counterexample): one round on the 3 control points
`(0,0,0), (4,0,0), (0,4,0)` yields 6 points, not `2*(3-1)+1 = 5`, and the
interior original control point `(4,0,0)` is NOT among the output points
(so the round does not replace each pair `(p0,p1)` by the four points
`p0, lerp(p0,p1,0.25), lerp(p0,p1,0.75), p1`). -/
theorem subdivide_curve_count_cex :
    (subdivide_curve [cexP, cexQ, cexR]).length = 6 ∧
    (subdivide_curve [cexP, cexQ, cexR]).length ≠ 2 * (3 - 1) + 1 ∧
    cexQ ∉ subdivide_curve [cexP, cexQ, cexR] := by
  refine ⟨rfl, by decide, ?_⟩
  intro hmem
  have h6 : subdivide_curve [cexP, cexQ, cexR]
      = [cexP, midLerp (1/4) cexP cexQ, midLerp (3/4) cexP cexQ,
         midLerp (1/4) cexQ cexR, midLerp (3/4) cexQ cexR, cexR] := rfl
  rw [h6] at hmem
  simp only [List.mem_cons] at hmem
  rcases hmem with h | h | h | h | h | h | h
  · have := congrFun h 0
    norm_num [cexP, cexQ, cexR, midLerp] at this
  · have := congrFun h 0
    norm_num [cexP, cexQ, cexR, midLerp] at this
  · have := congrFun h 0
    norm_num [cexP, cexQ, cexR, midLerp] at this
  · have := congrFun h 0
    norm_num [cexP, cexQ, cexR, midLerp] at this
  · have := congrFun h 0
    norm_num [cexP, cexQ, cexR, midLerp] at this
  · have := congrFun h 1
    norm_num [cexP, cexQ, cexR, midLerp] at this
  · exact (List.not_mem_nil _) h

/-! ## C6 -/

/-- C6 (counterexample): an artifact that is present but not parseable as
the expected JSON structure does NOT always produce a cache miss.  Content
`5` (valid JSON, wrong structure) raises an uncaught `TypeError` at
`'articles' not in existing_data`; content `{"articles": 5}` at
`len(existing_data['articles'])`; content `{"articles": [1]}` an uncaught
`AttributeError` at `article.get('checksum', '')`.  In each case the run
dies (`none`) instead of returning `false`. -/
theorem should_skip_py_structural_cex :
    should_skip_regeneration_py (.parsed (.num 5)) 0 [] ["pca"] [3] = none ∧
    should_skip_regeneration_py (.parsed (.num 5)) 0 [] ["pca"] [3]
      ≠ some false ∧
    should_skip_regeneration_py (.parsed (.obj [("articles", .num 5)]))
      0 [] ["pca"] [3] = none ∧
    should_skip_regeneration_py (.parsed (.obj [("articles", .arr [.num 1])]))
      1 ["c"] ["pca"] [3] = none := by
  refine ⟨rfl, ?_, rfl, rfl⟩
  intro h
  rw [show should_skip_regeneration_py (.parsed (.num 5)) 0 [] ["pca"] [3]
      = none from rfl] at h
  exact Option.noConfusion h

/-- C6 (amended): only content that fails JSON decoding altogether
(`json.JSONDecodeError`) — or a `KeyError`-shaped structural problem — is
treated as a cache miss: `should_skip_regeneration` then returns `false`
with no fatal error.  An artifact that parses as JSON but does not have the
expected structure is fatal: a non-container top level (e.g. a number)
raises an uncaught `TypeError` at the `'articles' not in` test, a non-sized
`articles` value an uncaught `TypeError` at `len(...)`, and a non-dict
article entry an uncaught `AttributeError` at `article.get(...)` — the
exception escapes the function and no recomputation is reached. -/
theorem should_skip_py_malformed_spec :
    (∀ (n : ℕ) (cks methods : List String) (dims : List ℕ),
      should_skip_regeneration_py .undecodable n cks methods dims = some false)
    ∧ (∀ (q : ℚ) (n : ℕ) (cks methods : List String) (dims : List ℕ),
      should_skip_regeneration_py (.parsed (.num q)) n cks methods dims = none)
    ∧ (∀ (q : ℚ) (n : ℕ) (cks methods : List String) (dims : List ℕ),
      should_skip_regeneration_py (.parsed (.obj [("articles", .num q)]))
        n cks methods dims = none)
    ∧ (∀ (q : ℚ) (cks methods : List String) (dims : List ℕ),
      should_skip_regeneration_py (.parsed (.obj [("articles", .arr [.num q])]))
        1 cks methods dims = none) :=
  ⟨fun _ _ _ _ => rfl,
   fun _ _ _ _ _ => rfl,
   fun _ _ _ _ _ => rfl,
   fun _ _ _ _ => rfl⟩

/-! ## C5 -/

theorem checksumsLoop_sound :
    ∀ (arts : List StoredArticle) (cks : List String),
      checksumsLoop arts cks = some true →
      arts.map StoredArticle.checksum = cks.take arts.length
  | [], _, _ => rfl
  | _ :: _, [], h => by simp [checksumsLoop] at h
  | a :: rest, c :: cs, h => by
    rw [checksumsLoop] at h
    split at h
    · simp at h
    · next hne =>
      have hc : a.checksum = c := by
        by_contra hab
        exact hne hab
      simp only [List.map_cons, List.length_cons, List.take_succ_cons, hc,
        checksumsLoop_sound rest cs h]

theorem listSetEq_sound {xs ys : List String} (h : listSetEq xs ys = true) :
    ∀ m, m ∈ xs ↔ m ∈ ys := by
  rw [listSetEq, Bool.and_eq_true, List.all_eq_true, List.all_eq_true] at h
  intro m
  constructor
  · intro hm
    simpa using h.1 m hm
  · intro hm
    simpa using h.2 m hm

theorem dimsMatch_sound {arts : List StoredArticle} {methods : List String}
    {dims : List ℕ} (h : dimsMatch arts methods dims = true) :
    arts ≠ [] → ∀ m ∈ methods, ∀ dim ∈ dims, mkKey m dim ∈ arts.headI.keys := by
  intro hne m hm dim hdim
  match arts, hne with
  | a0 :: rest, _ =>
    rw [dimsMatch, List.all_eq_true] at h
    have := h m hm
    rw [List.all_eq_true] at this
    simpa using this dim hdim

/-- C5 (amended): `should_skip_regeneration` returns `some true` only if the
output file was parsed, its `articles` entry is present, the stored article
count equals the batch size, every stored per-article checksum equals the
freshly computed checksum at the same index, the stored reduction-method
set equals the requested method set, and — whenever the stored article list
is non-empty — every requested `{method}_{dimension}d` key is present on the
FIRST stored article (hence on at least one).  For an empty stored article
list the key check is vacuously skipped by the code. -/
theorem should_skip_sound (f : FileState) (n : ℕ) (cks methods : List String)
    (dims : List ℕ)
    (h : should_skip_regeneration f n cks methods dims = some true) :
    ∃ d arts, f = .parsed d ∧ d.articles = some arts ∧ arts.length = n ∧
      arts.map StoredArticle.checksum = cks.take arts.length ∧
      (∀ m, m ∈ d.reduction_method ↔ m ∈ methods) ∧
      (arts ≠ [] → ∀ m ∈ methods, ∀ dim ∈ dims, mkKey m dim ∈ arts.headI.keys) := by
  match f with
  | .missing => simp [should_skip_regeneration] at h
  | .malformed => simp [should_skip_regeneration] at h
  | .parsed d =>
    refine ⟨d, ?_⟩
    rw [should_skip_regeneration] at h
    split at h
    · simp at h
    · next arts heq =>
      refine ⟨arts, rfl, heq, ?_⟩
      split at h
      · simp at h
      · next hlen =>
        split at h
        · simp at h
        · next cm hloop =>
          have hb : (cm && listSetEq d.reduction_method methods
              && dimsMatch arts methods dims) = true := by
            simpa using h
          rw [Bool.and_eq_true, Bool.and_eq_true] at hb
          obtain ⟨⟨hcm, hset⟩, hdims⟩ := hb
          subst hcm
          exact ⟨by omega, checksumsLoop_sound arts cks hloop,
            listSetEq_sound hset, dimsMatch_sound hdims⟩

/-- A concrete stored article for the C5 witness. -/
def storedOk : StoredArticle := ⟨"c1", ["pca_3d"]⟩

/-- A concrete well-matching existing output file. -/
def okFile : FileState := .parsed ⟨some [storedOk], ["pca"]⟩

/-- Witness for `should_skip_sound` at a concrete matching input. -/
theorem should_skip_sound_witness :
    should_skip_regeneration okFile 1 ["c1"] ["pca"] [3] = some true ∧
    (∃ d arts, okFile = .parsed d ∧ d.articles = some arts ∧ arts.length = 1 ∧
      arts.map StoredArticle.checksum = ["c1"].take arts.length ∧
      (∀ m, m ∈ d.reduction_method ↔ m ∈ ["pca"]) ∧
      (arts ≠ [] → ∀ m ∈ ["pca"], ∀ dim ∈ [3], mkKey m dim ∈ arts.headI.keys)) :=
  ⟨by decide, should_skip_sound okFile 1 ["c1"] ["pca"] [3] (by decide)⟩

/-- The existing output of the C5 counterexample: a parsed file with an
EMPTY stored article list and stored method set `{"pca"}`. -/
def emptyStoredFile : FileState := .parsed ⟨some [], ["pca"]⟩

/-- C5 (counterexample): for an empty batch (`n = 0`, no fresh checksums)
with requested methods `["pca"]` and dimensions `[3]`, the gate returns
`some true` although no stored article carries the requested key
`"pca_3d"` — the claim's condition "every requested `{method}_{dimension}d`
key is present on at least one stored article" fails while the function
still returns true. -/
theorem should_skip_cex :
    should_skip_regeneration emptyStoredFile 0 [] ["pca"] [3] = some true ∧
    ¬ ∃ a : StoredArticle, a ∈ ([] : List StoredArticle) ∧
        mkKey "pca" 3 ∈ a.keys := by
  refine ⟨by decide, ?_⟩
  rintro ⟨a, ha, -⟩
  exact List.not_mem_nil a ha

/-! ## C7 -/

/-- The all-zero weight table of the C7 failing input. -/
def zeroWeights : Weights := [("title", 0)]

/-- C7: neither `main` validates the weight table.  With the all-zero
weight table no field is embedded, `total_weight` is `0`, and the combine
step divides the zero accumulator by the zero weight sum instead of
aborting: no `InvalidWeights` (or any other) error is raised.  In numpy the
division `0/0` silently yields NaN vectors (with only a runtime warning);
in this total model the division by zero yields the zero vector.  Either
way the pipeline proceeds with degenerate combined vectors, contradicting
the claimed fatal abort. -/
theorem combine_embeddings_zero_weights (emb : String → List ℚ) (dim : ℕ) :
    total_weight zeroWeights = 0 ∧
    combine_embeddings zeroWeights emb dim = List.replicate dim 0 := by
  refine ⟨by simp [total_weight, zeroWeights], ?_⟩
  show ((zeroWeights.filter fun kv => 0 < kv.2).foldl _
      (List.replicate dim (0 : ℚ))).map _ = _
  rw [show zeroWeights.filter (fun kv => decide (0 < kv.2)) = [] from rfl]
  rw [List.foldl_nil, List.map_replicate]
  simp [zero_div]

/-! ## C2 -/

/-- Two field values carrying the same underlying data up to list-element
order: equal scalars, or list values that are permutations of each other. -/
def ValuePerm : Value → Value → Prop
  | .s a, .s b => a = b
  | .l xs, .l ys => xs.Perm ys
  | .s _, .l _ => False
  | .l _, .s _ => False

instance : ∀ v w : Value, Decidable (ValuePerm v w)
  | .s a, .s b => inferInstanceAs (Decidable (a = b))
  | .l xs, .l ys => inferInstanceAs (Decidable (xs.Perm ys))
  | .s _, .l _ => inferInstanceAs (Decidable False)
  | .l _, .s _ => inferInstanceAs (Decidable False)

theorem normalizeValue_congr {v w : Value} (h : ValuePerm v w) :
    normalizeValue v = normalizeValue w := by
  cases v with
  | s a =>
    cases w with
    | s b =>
      have hab : a = b := h
      rw [hab]
    | l ys => exact False.elim h
  | l xs =>
    cases w with
    | s b => exact False.elim h
    | l ys =>
      have hp : xs.Perm ys := h
      show (if xs = [] then "" else String.intercalate " " (sortStrings xs))
        = (if ys = [] then "" else String.intercalate " " (sortStrings ys))
      rcases eq_or_ne xs [] with rfl | hne
      · have hy : ys = [] := hp.symm.eq_nil
        rw [hy]
      · have hne' : ys ≠ [] := fun hy => hne (hy ▸ hp).eq_nil
        rw [if_neg hne, if_neg hne']
        have hs : sortStrings xs = sortStrings ys :=
          insertionSort_perm_congr (fun a b : String => a ≤ b) hp
        rw [hs]

/-- C2 (amended): the Pair Checksum is invariant to permuting the requested
field list and to replacing any field value of either endpoint by one with
the same data up to list-element order (in particular, to permuting the
elements of any list-valued field).  It is NOT invariant to swapping the
two items — see `calculate_field_checksum_swap_cex`. -/
theorem calculate_field_checksum_invariance
    (data data' : List Article) (i j : ℕ) (fields fields' : List String)
    (hf : fields.Perm fields')
    (hi : ∀ f ∈ fields,
      ValuePerm (aget (data.getD i []) f) (aget (data'.getD i []) f))
    (hj : ∀ f ∈ fields,
      ValuePerm (aget (data.getD j []) f) (aget (data'.getD j []) f)) :
    calculate_field_checksum data i j fields
      = calculate_field_checksum data' i j fields' := by
  unfold calculate_field_checksum
  apply insertionSort_perm_congr
  have hmap : (fields.map fun f =>
        ((f, normalizeValue (aget (data.getD i []) f),
          normalizeValue (aget (data.getD j []) f)) : Triple))
      = fields.map fun f =>
        (f, normalizeValue (aget (data'.getD i []) f),
          normalizeValue (aget (data'.getD j []) f)) :=
    List.map_congr_left fun f hfm => by
      rw [normalizeValue_congr (hi f hfm), normalizeValue_congr (hj f hfm)]
  rw [hmap]
  exact hf.map _

/-- First article of the C2 witness: a list-valued `tags` field. -/
def artTagsXY : Article := [("tags", .l ["x", "y"])]

/-- The same article with the list value permuted. -/
def artTagsYX : Article := [("tags", .l ["y", "x"])]

/-- Second article of the C2 witness. -/
def artTagsZ : Article := [("tags", .s "z")]

/-- Witness for `calculate_field_checksum_invariance`: permuted field list
and a permuted list value yield the same checksum. -/
theorem calculate_field_checksum_invariance_witness :
    (["tags", "title"] : List String).Perm ["title", "tags"] ∧
    calculate_field_checksum [artTagsXY, artTagsZ] 0 1 ["tags", "title"]
      = calculate_field_checksum [artTagsYX, artTagsZ] 0 1 ["title", "tags"] :=
  ⟨by decide,
    calculate_field_checksum_invariance [artTagsXY, artTagsZ]
      [artTagsYX, artTagsZ] 0 1 ["tags", "title"] ["title", "tags"]
      (by decide) (by decide) (by decide)⟩

/-- First article of the C2 counterexample. -/
def artTitleA : Article := [("title", .s "a")]

/-- Second article of the C2 counterexample. -/
def artTitleB : Article := [("title", .s "b")]

/-- C2 (counterexample): the Pair Checksum is NOT invariant to swapping the
two items.  With `title` values `"a"` and `"b"`, the checksum data for
`(i, j) = (0, 1)` is `[("title", "a", "b")]` and for `(1, 0)` it is
`[("title", "b", "a")]`: each tuple records the first item's value before
the second's, and sorting the tuple LIST does not reorder values inside a
tuple, so the serialised data (hence the SHA-256 hex digest) differs.
(Callers only ever invoke the pair with `i < j`.) -/
theorem calculate_field_checksum_swap_cex :
    calculate_field_checksum [artTitleA, artTitleB] 0 1 ["title"]
      ≠ calculate_field_checksum [artTitleA, artTitleB] 1 0 ["title"] := by
  decide

/-! ## C4 -/

/-- C4: the Item Checksum is computed only from positive-weight fields:
whenever two articles agree on every positive-weight field's value (their
other fields — including every zero-weight field — may differ arbitrarily,
as may the dict insertion order, which affects neither `get` nor the
weight-table iteration), the checksums are equal; and whenever some
positive-weight field's value differs, the checksums differ. -/
theorem calculate_article_checksum_spec (w : Weights) (a a' : Article) :
    ((∀ k v, (k, v) ∈ w → 0 < v → aget a k = aget a' k) →
      calculate_article_checksum a w = calculate_article_checksum a' w)
    ∧ (∀ k v, (k, v) ∈ w → 0 < v → aget a k ≠ aget a' k →
      calculate_article_checksum a w ≠ calculate_article_checksum a' w) := by
  constructor
  · intro h
    unfold calculate_article_checksum
    congr 1
    refine List.map_congr_left fun kv hkv => ?_
    rw [List.mem_filter] at hkv
    have hv : (0 : ℚ) < kv.2 := by simpa using hkv.2
    rw [h kv.1 kv.2 hkv.1 hv]
  · intro k v hkv hv hne heq
    apply hne
    unfold calculate_article_checksum at heq
    have h1 := List.perm_insertionSort pairLe
      ((w.filter fun kv => 0 < kv.2).map fun kv => (kv.1, aget a kv.1))
    have h2 := List.perm_insertionSort pairLe
      ((w.filter fun kv => 0 < kv.2).map fun kv => (kv.1, aget a' kv.1))
    have hperm :
        ((w.filter fun kv => 0 < kv.2).map fun kv => (kv.1, aget a kv.1)).Perm
          ((w.filter fun kv => 0 < kv.2).map fun kv => (kv.1, aget a' kv.1)) :=
      (heq ▸ h1.symm).trans h2
    have hmem : ((k, aget a k) : String × Value)
        ∈ (w.filter fun kv => 0 < kv.2).map fun kv => (kv.1, aget a kv.1) := by
      refine List.mem_map.mpr ⟨(k, v), ?_, rfl⟩
      rw [List.mem_filter]
      exact ⟨hkv, by simpa using hv⟩
    have hmem' := hperm.mem_iff.mp hmem
    obtain ⟨kv', _, hkv'⟩ := List.mem_map.mp hmem'
    have hk : kv'.1 = k := congrArg Prod.fst hkv'
    have := congrArg Prod.snd hkv'
    simp only at this
    rw [hk] at this
    exact this.symm

/-- Weight table of the C4 witness: `title` weighted, `tags` zero-weight. -/
def wTitleTags : Weights := [("title", 1), ("tags", 0)]

/-- C4 witness article. -/
def artC4 : Article := [("title", .s "t"), ("tags", .s "x")]

/-- The same article with insertion order swapped and the zero-weight
`tags` value changed. -/
def artC4' : Article := [("tags", .s "y"), ("title", .s "t")]

/-- An article whose weighted `title` value differs. -/
def artC4u : Article := [("title", .s "u"), ("tags", .s "x")]

/-- Witness for `calculate_article_checksum_spec`: insertion order and a
zero-weight value change leave the checksum unchanged; a weighted value
change alters it. -/
theorem calculate_article_checksum_spec_witness :
    calculate_article_checksum artC4 wTitleTags
      = calculate_article_checksum artC4' wTitleTags ∧
    calculate_article_checksum artC4 wTitleTags
      ≠ calculate_article_checksum artC4u wTitleTags :=
  ⟨(calculate_article_checksum_spec wTitleTags artC4 artC4').1 (by
      intro k v hkv hv
      simp only [wTitleTags, List.mem_cons, List.not_mem_nil, or_false] at hkv
      rcases hkv with h | h
      · cases h
        decide
      · cases h
        simp at hv),
   (calculate_article_checksum_spec wTitleTags artC4 artC4u).2 "title" 1
     (by simp [wTitleTags]) (by norm_num) (by decide)⟩

/-! ## C8 -/

theorem foldl_min_mem {α : Type} [LinearOrder α] :
    ∀ (xs : List α) (x : α), xs.foldl min x ∈ x :: xs
  | [], x => by simp
  | y :: ys, x => by
    rw [List.foldl_cons]
    rcases List.mem_cons.mp (foldl_min_mem ys (min x y)) with h' | h'
    · rw [h']
      rcases min_choice x y with h | h
      · rw [h]
        exact List.mem_cons_self _ _
      · rw [h]
        exact List.mem_cons.mpr (Or.inr (List.mem_cons_self _ _))
    · exact List.mem_cons.mpr (Or.inr (List.mem_cons.mpr (Or.inr h')))

theorem foldl_min_le_init {α : Type} [LinearOrder α] :
    ∀ (xs : List α) (x : α), xs.foldl min x ≤ x
  | [], x => le_refl x
  | y :: ys, x => by
    rw [List.foldl_cons]
    exact (foldl_min_le_init ys (min x y)).trans (min_le_left x y)

theorem foldl_min_le_mem {α : Type} [LinearOrder α] :
    ∀ (xs : List α) (x y : α), y ∈ xs → xs.foldl min x ≤ y
  | z :: zs, x, y, hy => by
    rw [List.foldl_cons]
    rcases List.mem_cons.mp hy with h | h
    · exact h ▸ (foldl_min_le_init zs (min x z)).trans (min_le_right x z)
    · exact foldl_min_le_mem zs (min x z) y h

theorem foldl_max_mem {α : Type} [LinearOrder α] :
    ∀ (xs : List α) (x : α), xs.foldl max x ∈ x :: xs
  | [], x => by simp
  | y :: ys, x => by
    rw [List.foldl_cons]
    rcases List.mem_cons.mp (foldl_max_mem ys (max x y)) with h' | h'
    · rw [h']
      rcases max_choice x y with h | h
      · rw [h]
        exact List.mem_cons_self _ _
      · rw [h]
        exact List.mem_cons.mpr (Or.inr (List.mem_cons_self _ _))
    · exact List.mem_cons.mpr (Or.inr (List.mem_cons.mpr (Or.inr h')))

theorem foldl_le_max_init {α : Type} [LinearOrder α] :
    ∀ (xs : List α) (x : α), x ≤ xs.foldl max x
  | [], x => le_refl x
  | y :: ys, x => by
    rw [List.foldl_cons]
    exact (le_max_left x y).trans (foldl_le_max_init ys (max x y))

theorem foldl_le_max_mem {α : Type} [LinearOrder α] :
    ∀ (xs : List α) (x y : α), y ∈ xs → y ≤ xs.foldl max x
  | z :: zs, x, y, hy => by
    rw [List.foldl_cons]
    rcases List.mem_cons.mp hy with h | h
    · exact h ▸ (le_max_right x z).trans (foldl_le_max_init zs (max x z))
    · exact foldl_le_max_mem zs (max x z) y h

theorem listMin_mem {scores : List ℚ} (h : scores ≠ []) :
    listMin scores ∈ scores := by
  match scores, h with
  | x :: xs, _ => exact foldl_min_mem xs x

theorem listMin_le {scores : List ℚ} {y : ℚ} (hy : y ∈ scores) :
    listMin scores ≤ y := by
  match scores, hy with
  | x :: xs, hy =>
    show xs.foldl min x ≤ y
    rcases List.mem_cons.mp hy with rfl | h
    · exact foldl_min_le_init xs y
    · exact foldl_min_le_mem xs x y h

theorem listMax_mem {scores : List ℚ} (h : scores ≠ []) :
    listMax scores ∈ scores := by
  match scores, h with
  | x :: xs, _ => exact foldl_max_mem xs x

theorem le_listMax {scores : List ℚ} {y : ℚ} (hy : y ∈ scores) :
    y ≤ listMax scores := by
  match scores, hy with
  | x :: xs, hy =>
    show y ≤ xs.foldl max x
    rcases List.mem_cons.mp hy with rfl | h
    · exact foldl_le_max_init xs y
    · exact foldl_le_max_mem xs x y h

/-- C8 (amended): after the per-field min-max normalisation
`2 * (score - min) / (max - min + 1e-8)`, the minimum normalised score of a
non-empty field column is exactly `0`; the maximum is exactly
`2 * R / (R + 1e-8)` for the raw range `R = max - min`, which is always
strictly below `2` but within `10⁻³` of `2` whenever `R ≥ 2·10⁻⁵` (for raw
ranges comparable to the epsilon the maximum falls far short of `2` — see
the counterexample); and when all raw scores of the field are equal every
normalised score is exactly `0` — a defined constant, never NaN. -/
theorem normalize_scores_spec (scores : List ℚ) (h : scores ≠ []) :
    (0 ∈ normalize_scores scores ∧ ∀ x ∈ normalize_scores scores, 0 ≤ x)
    ∧ (2 * (listMax scores - listMin scores)
          / (listMax scores - listMin scores + eps8) ∈ normalize_scores scores
       ∧ ∀ x ∈ normalize_scores scores,
          x ≤ 2 * (listMax scores - listMin scores)
              / (listMax scores - listMin scores + eps8))
    ∧ 2 * (listMax scores - listMin scores)
        / (listMax scores - listMin scores + eps8) < 2
    ∧ (1 / 50000 ≤ listMax scores - listMin scores →
       2 - 2 * (listMax scores - listMin scores)
           / (listMax scores - listMin scores + eps8) ≤ 1 / 1000)
    ∧ ((∀ x ∈ scores, x = listMin scores) →
       ∀ x ∈ normalize_scores scores, x = 0) := by
  have hmmem := listMin_mem h
  have hMmem := listMax_mem h
  have hmM : listMin scores ≤ listMax scores := listMin_le hMmem
  have hR : (0 : ℚ) ≤ listMax scores - listMin scores := by linarith
  have heps : (0 : ℚ) < eps8 := by norm_num [eps8]
  have hD : (0 : ℚ) < listMax scores - listMin scores + eps8 := by linarith
  refine ⟨⟨?_, ?_⟩, ⟨?_, ?_⟩, ?_, ?_, ?_⟩
  · refine List.mem_map.mpr ⟨listMin scores, hmmem, ?_⟩
    rw [sub_self, mul_zero, zero_div]
  · intro x hx
    obtain ⟨s, hs, rfl⟩ := List.mem_map.mp hx
    have hms := listMin_le hs
    exact div_nonneg (by linarith) (le_of_lt hD)
  · exact List.mem_map.mpr ⟨listMax scores, hMmem, rfl⟩
  · intro x hx
    obtain ⟨s, hs, rfl⟩ := List.mem_map.mp hx
    have hsM := le_listMax hs
    exact (div_le_div_right hD).mpr (by linarith)
  · rw [div_lt_iff hD]
    linarith
  · intro hRR
    have he : eps8 = 1 / 100000000 := rfl
    have h2 : (1999 : ℚ) / 1000
        ≤ 2 * (listMax scores - listMin scores)
          / (listMax scores - listMin scores + eps8) := by
      rw [le_div_iff hD]
      linarith
    linarith
  · intro hall x hx
    obtain ⟨s, hs, rfl⟩ := List.mem_map.mp hx
    rw [hall s hs, sub_self, mul_zero, zero_div]

/-- Witness for `normalize_scores_spec` at the concrete column `[0, 1]`. -/
theorem normalize_scores_spec_witness :
    ([0, 1] : List ℚ) ≠ [] ∧
    ((0 ∈ normalize_scores [0, 1] ∧ ∀ x ∈ normalize_scores [0, 1], 0 ≤ x)
    ∧ (2 * (listMax [0, 1] - listMin [0, 1])
          / (listMax [0, 1] - listMin [0, 1] + eps8) ∈ normalize_scores [0, 1]
       ∧ ∀ x ∈ normalize_scores [0, 1],
          x ≤ 2 * (listMax [0, 1] - listMin [0, 1])
              / (listMax [0, 1] - listMin [0, 1] + eps8))
    ∧ 2 * (listMax [0, 1] - listMin [0, 1])
        / (listMax [0, 1] - listMin [0, 1] + eps8) < 2
    ∧ (1 / 50000 ≤ listMax [0, 1] - listMin [0, 1] →
       2 - 2 * (listMax [0, 1] - listMin [0, 1])
           / (listMax [0, 1] - listMin [0, 1] + eps8) ≤ 1 / 1000)
    ∧ ((∀ x ∈ ([0, 1] : List ℚ), x = listMin [0, 1]) →
       ∀ x ∈ normalize_scores [0, 1], x = 0)) :=
  ⟨by simp, normalize_scores_spec [0, 1] (by simp)⟩

/-- The raw score column of the C8 counterexample: two distinct scores whose
range `10⁻⁹` is smaller than the `10⁻⁸` epsilon guard. -/
def tinyScores : List ℚ := [0, 1 / 1000000000]

/-- C8 (counterexample): for the field column `[0, 10⁻⁹]` the raw scores are
not all equal, yet EVERY normalised score — the maximum included — is more
than `10⁻¹` away from `2` (the maximum is `2/11 ≈ 0.18`): the claim that the
per-field maximum is 2 within tolerance fails whenever the raw range is
comparable to the epsilon guard. -/
theorem normalize_scores_max_cex :
    (¬ ∀ x ∈ tinyScores, ∀ y ∈ tinyScores, x = y) ∧
    normalize_scores tinyScores = [0, 2 / 11] ∧
    ∀ x ∈ normalize_scores tinyScores, 1 / 10 < |x - 2| := by
  have hmin : listMin [(0 : ℚ), 1 / 1000000000] = 0 := by
    show ([(1 : ℚ) / 1000000000]).foldl min 0 = 0
    rw [List.foldl_cons, List.foldl_nil, min_def]
    norm_num
  have hmax : listMax [(0 : ℚ), 1 / 1000000000] = 1 / 1000000000 := by
    show ([(1 : ℚ) / 1000000000]).foldl max 0 = 1 / 1000000000
    rw [List.foldl_cons, List.foldl_nil, max_def]
    norm_num
  have hn : normalize_scores tinyScores = [0, 2 / 11] := by
    rw [show tinyScores = [(0 : ℚ), 1 / 1000000000] from rfl, normalize_scores,
      hmin, hmax]
    norm_num [eps8]
  refine ⟨?_, hn, ?_⟩
  · intro hall
    have h0 : (0 : ℚ) ∈ tinyScores := by norm_num [tinyScores]
    have h1 : (1 / 1000000000 : ℚ) ∈ tinyScores := by norm_num [tinyScores]
    have := hall 0 h0 (1 / 1000000000) h1
    norm_num at this
  · intro x hx
    rw [hn] at hx
    rcases List.mem_cons.mp hx with rfl | hx'
    · rw [show |(0 : ℚ) - 2| = 2 from by norm_num [abs_of_nonpos]]
      norm_num
    · rcases List.mem_cons.mp hx' with rfl | hx''
      · rw [show |(2 / 11 : ℚ) - 2| = 20 / 11 from by
          rw [abs_of_nonpos (by norm_num)]
          norm_num]
        norm_num
      · exact absurd hx'' (List.not_mem_nil x)

/-! ## C10 -/

theorem mem_clusterMembers {P : RelaxParams} {ℓ : ℤ} {i : ℕ} :
    i ∈ clusterMembers P ℓ ↔ i < P.n ∧ P.labels i = ℓ := by
  simp [clusterMembers, List.mem_filter, List.mem_range]

theorem clusterMembers_length_le (P : RelaxParams) (ℓ : ℤ) :
    (clusterMembers P ℓ).length ≤ P.n :=
  le_trans (List.length_filter_le _ _) (le_of_eq (List.length_range P.n))

theorem processCluster_small {P : RelaxParams} {pts : ℕ → RVec} {ℓ : ℤ}
    {i : ℕ} (h : (clusterMembers P ℓ).length < 2) :
    processCluster P pts ℓ i = pts i := by
  simp only [processCluster]
  rw [if_pos h]

theorem processCluster_not_mem {P : RelaxParams} {pts : ℕ → RVec} {ℓ : ℤ}
    {i : ℕ} (h : P.labels i ≠ ℓ) :
    processCluster P pts ℓ i = pts i := by
  simp only [processCluster]
  by_cases hlen : (clusterMembers P ℓ).length < 2
  · rw [if_pos hlen]
  · rw [if_neg hlen, if_neg (fun hm => h (mem_clusterMembers.mp hm).2)]

theorem processCluster_member {P : RelaxParams} {pts : ℕ → RVec} {ℓ : ℤ}
    {i : ℕ} (hlen : ¬ (clusterMembers P ℓ).length < 2)
    (hi : i ∈ clusterMembers P ℓ) :
    processCluster P pts ℓ i = fun a =>
      clusterCenter pts (clusterMembers P ℓ) a
      + (naturalDisp P (clusterCenter pts (clusterMembers P ℓ)) i (pts i)).1 a
        * (naturalDisp P (clusterCenter pts (clusterMembers P ℓ)) i (pts i)).2
      + displacement P pts ℓ i a := by
  simp only [processCluster]
  rw [if_neg hlen, if_pos hi]

theorem foldl_processCluster_keep (P : RelaxParams) (i : ℕ) :
    ∀ (L : List ℤ) (pts : ℕ → RVec),
      (∀ ℓ' ∈ L, ℓ' ≠ P.labels i ∨ (clusterMembers P ℓ').length < 2) →
      (L.foldl (processCluster P) pts) i = pts i
  | [], _, _ => rfl
  | ℓ :: L', pts, h => by
    rw [List.foldl_cons,
      foldl_processCluster_keep P i L' (processCluster P pts ℓ)
        (fun ℓ' hℓ' => h ℓ' (List.mem_cons.mpr (Or.inr hℓ')))]
    rcases h ℓ (List.mem_cons_self _ _) with hne | hsmall
    · exact processCluster_not_mem (fun he => hne he.symm)
    · exact processCluster_small hsmall

theorem clusterCenter_congr {pts pts' : ℕ → RVec} {ms : List ℕ}
    (h : ∀ j ∈ ms, pts j = pts' j) :
    clusterCenter pts ms = clusterCenter pts' ms := by
  funext a
  show (ms.map fun i => pts i a).sum / ms.length
      = (ms.map fun i => pts' i a).sum / ms.length
  rw [List.map_congr_left fun i hi => by rw [h i hi]]

theorem clusterYs_congr {P : RelaxParams} {pts pts' : ℕ → RVec} {ℓ : ℤ}
    (h : ∀ j ∈ clusterMembers P ℓ, pts j = pts' j) :
    clusterYs P pts ℓ = clusterYs P pts' ℓ := by
  rw [clusterYs, clusterYs, clusterCenter_congr h]
  exact List.map_congr_left fun i hi => by rw [h i hi]

theorem evenPositionAt_congr {P : RelaxParams} {pts pts' : ℕ → RVec} {ℓ : ℤ}
    (h : ∀ j ∈ clusterMembers P ℓ, pts j = pts' j) (p : ℕ) :
    evenPositionAt P pts ℓ p = evenPositionAt P pts' ℓ p := by
  simp only [evenPositionAt]
  rw [clusterYs_congr h]

theorem displacement_congr {P : RelaxParams} {pts pts' : ℕ → RVec} {ℓ : ℤ}
    {i : ℕ} (h : ∀ j ∈ clusterMembers P ℓ, pts j = pts' j)
    (hi : i ∈ clusterMembers P ℓ) :
    displacement P pts ℓ i = displacement P pts' ℓ i := by
  simp only [displacement]
  rw [clusterCenter_congr h, h i hi]
  rw [evenPositionAt_congr h (List.indexOf i (clusterMembers P ℓ))]

/-- C9 (amended): in `relax_clusters`, every member of a cluster with at
least 2 members is rewritten to the cluster centroid (of the member's
cluster, over the ORIGINAL point positions) plus its possibly jittered unit
direction scaled by the `distance_from_center` scalar of the first pass —
the original distance from the centroid, EXCEPT for members that coincide
with the centroid (distance `< 1e-6`), which are scaled by the norm of the
substituted random direction instead (see the counterexample) — plus the
axis-specific displacement (horizontal factor on axes 0 and 2 and vertical
factor with optional even-distribution blending on axis 1 for 3D layouts,
horizontal factor on both axes for 2D); members of clusters with fewer than
2 members keep their original coordinates unchanged. -/
theorem relax_clusters_member_spec (P : RelaxParams) (pts : ℕ → RVec)
    (idx : ℕ) (hidx : idx < P.n) :
    (2 ≤ (clusterMembers P (P.labels idx)).length →
      relax_clusters P pts idx = fun a =>
        clusterCenter pts (clusterMembers P (P.labels idx)) a
        + (naturalDisp P (clusterCenter pts (clusterMembers P (P.labels idx)))
            idx (pts idx)).1 a
          * (naturalDisp P (clusterCenter pts (clusterMembers P (P.labels idx)))
              idx (pts idx)).2
        + displacement P pts (P.labels idx) idx a)
    ∧ ((clusterMembers P (P.labels idx)).length < 2 →
      relax_clusters P pts idx = pts idx) := by
  constructor
  · intro hlen
    have hn2 : 2 ≤ P.n := le_trans hlen (clusterMembers_length_le P _)
    rw [relax_clusters, if_neg (by omega)]
    have hmemℓ : P.labels idx ∈ ((List.range P.n).map P.labels).dedup :=
      List.mem_dedup.mpr (List.mem_map.mpr ⟨idx, List.mem_range.mpr hidx, rfl⟩)
    obtain ⟨L₁, L₂, hsplit⟩ := List.append_of_mem hmemℓ
    have hnd : (((List.range P.n).map P.labels).dedup).Nodup := List.nodup_dedup _
    rw [hsplit] at hnd
    rw [List.nodup_append, List.nodup_cons] at hnd
    have h1 : P.labels idx ∉ L₁ :=
      fun hin => hnd.2.2 hin (List.mem_cons_self _ _)
    have h2 : P.labels idx ∉ L₂ := hnd.2.1.1
    rw [hsplit, List.foldl_append, List.foldl_cons]
    have hpts1 : ∀ j ∈ clusterMembers P (P.labels idx),
        (L₁.foldl (processCluster P) pts) j = pts j := by
      intro j hj
      refine foldl_processCluster_keep P j L₁ pts fun ℓ' hℓ' => Or.inl fun he => ?_
      exact h1 ((he.trans (mem_clusterMembers.mp hj).2) ▸ hℓ')
    rw [foldl_processCluster_keep P idx L₂ _
      (fun ℓ' hℓ' => Or.inl fun he => h2 (he ▸ hℓ'))]
    rw [processCluster_member (by omega)
      (mem_clusterMembers.mpr ⟨hidx, rfl⟩)]
    rw [clusterCenter_congr hpts1,
      hpts1 idx (mem_clusterMembers.mpr ⟨hidx, rfl⟩),
      displacement_congr hpts1 (mem_clusterMembers.mpr ⟨hidx, rfl⟩)]
  · intro hsmall
    rw [relax_clusters]
    by_cases hn : P.n < 2
    · rw [if_pos hn]
    · rw [if_neg hn]
      refine foldl_processCluster_keep P idx _ pts fun ℓ' hℓ' => ?_
      by_cases he : ℓ' = P.labels idx
      · exact Or.inr (he ▸ hsmall)
      · exact Or.inl he

/-- The concrete `randn` draw of the C9 instance: `(3, 4, 0)`, of norm 5. -/
noncomputable def cexRand : RVec := fun a => if a = 0 then 3 else if a = 1 then 4 else 0

/-- Concrete `relax_clusters` inputs: two 3D points, both in cluster 0,
`min_distance = 1`, both displacement factors 1, no vertical blending, no
jitter, and the draw `cexRand` for coincident members. -/
noncomputable def cexParams : RelaxParams where
  n := 2
  d := 3
  labels := fun _ => 0
  minDist := 1
  dispH := 1
  dispV := 1
  vdf := 0
  rf := 0
  randDir := fun _ => cexRand
  randJit := fun _ _ => 0
  shuf := fun _ p => p

/-- The concrete point array: both points at the origin. -/
noncomputable def cexPts : ℕ → RVec := fun _ _ => 0

theorem cex_members : clusterMembers cexParams 0 = [0, 1] := by decide

theorem cex_center :
    clusterCenter cexPts (clusterMembers cexParams 0) = fun _ => 0 := by
  rw [cex_members]
  funext a
  show ((([0, 1] : List ℕ).map fun i => cexPts i a).sum : ℝ)
      / (([0, 1] : List ℕ).length : ℕ) = 0
  norm_num [cexPts]

theorem cex_vnorm_zero :
    vnorm cexParams.d (fun a => cexPts 0 a - 0) = 0 := by
  rw [show (fun a => cexPts 0 a - 0) = fun _ : ℕ => (0 : ℝ)
    from funext fun a => by norm_num [cexPts]]
  rw [vnorm]
  rw [show ∑ a ∈ Finset.range cexParams.d, ((fun _ : ℕ => (0 : ℝ)) a ^ 2) = 0
    from Finset.sum_eq_zero fun a _ => by norm_num]
  exact Real.sqrt_zero

theorem cex_vnorm_rand : vnorm cexParams.d (cexParams.randDir 0) = 5 := by
  show vnorm 3 cexRand = 5
  rw [vnorm]
  rw [show ∑ a ∈ Finset.range 3, cexRand a ^ 2 = 25 from by
    rw [Finset.sum_range_succ, Finset.sum_range_succ, Finset.sum_range_one]
    norm_num [cexRand]]
  rw [show (25 : ℝ) = 5 ^ 2 from by norm_num]
  exact Real.sqrt_sq (by norm_num)

theorem cex_naturalDisp :
    naturalDisp cexParams (clusterCenter cexPts (clusterMembers cexParams 0))
      0 (cexPts 0) = (fun a => cexRand a / 5, 5) := by
  rw [cex_center]
  simp only [naturalDisp]
  rw [if_neg (show ¬ (0 : ℝ) < cexParams.rf by
    show ¬ (0 : ℝ) < 0
    norm_num)]
  rw [if_pos (show vnorm cexParams.d (fun a => cexPts 0 a - 0) < 1 / 1000000 by
    rw [cex_vnorm_zero]
    norm_num)]
  rw [cex_vnorm_rand]
  rfl

theorem cex_origdist :
    vnorm cexParams.d (fun a => cexPts 0 a
      - clusterCenter cexPts (clusterMembers cexParams 0) a) = 0 := by
  rw [cex_center]
  exact cex_vnorm_zero

/-- C9 (counterexample): for a 2-member cluster whose members both sit at
the origin (hence coincide with the centroid), the final position does NOT
equal centroid + direction × (original distance from centroid) + axis
displacement: the code overwrites `distance_from_center` with the norm of
the substituted random draw (here 5), so the member is pushed 5 units along
the random unit direction, while the claim's formula (original distance 0)
would leave only the axis displacement. -/
theorem relax_clusters_origdist_cex :
    relax_clusters cexParams cexPts 0 0
      ≠ clusterCenter cexPts (clusterMembers cexParams 0) 0
        + (naturalDisp cexParams
            (clusterCenter cexPts (clusterMembers cexParams 0)) 0 (cexPts 0)).1 0
          * vnorm cexParams.d (fun a => cexPts 0 a
              - clusterCenter cexPts (clusterMembers cexParams 0) a)
        + displacement cexParams cexPts 0 0 0 := by
  have hn2 : ¬ cexParams.n < 2 := by decide
  have hdedup : ((List.range cexParams.n).map cexParams.labels).dedup = [0] := by
    decide
  have hlen : ¬ (clusterMembers cexParams 0).length < 2 := by decide
  have hmem : (0 : ℕ) ∈ clusterMembers cexParams 0 := by decide
  have hout : relax_clusters cexParams cexPts 0 0
      = clusterCenter cexPts (clusterMembers cexParams 0) 0
        + (naturalDisp cexParams
            (clusterCenter cexPts (clusterMembers cexParams 0)) 0 (cexPts 0)).1 0
          * (naturalDisp cexParams
              (clusterCenter cexPts (clusterMembers cexParams 0)) 0 (cexPts 0)).2
        + displacement cexParams cexPts 0 0 0 := by
    rw [relax_clusters, if_neg hn2, hdedup, List.foldl_cons, List.foldl_nil,
      processCluster_member hlen hmem]
  intro h
  rw [hout, cex_naturalDisp, cex_origdist] at h
  have h2 := add_right_cancel h
  have h3 := add_left_cancel h2
  norm_num [cexRand] at h3

/-- Witness for `relax_clusters_member_spec` at the concrete instance. -/
theorem relax_clusters_member_spec_witness :
    (0 < cexParams.n) ∧
    (2 ≤ (clusterMembers cexParams (cexParams.labels 0)).length →
      relax_clusters cexParams cexPts 0 = fun a =>
        clusterCenter cexPts (clusterMembers cexParams (cexParams.labels 0)) a
        + (naturalDisp cexParams
            (clusterCenter cexPts (clusterMembers cexParams (cexParams.labels 0)))
            0 (cexPts 0)).1 a
          * (naturalDisp cexParams
              (clusterCenter cexPts (clusterMembers cexParams (cexParams.labels 0)))
              0 (cexPts 0)).2
        + displacement cexParams cexPts (cexParams.labels 0) 0 a)
    ∧ ((clusterMembers cexParams (cexParams.labels 0)).length < 2 →
      relax_clusters cexParams cexPts 0 = cexPts 0) :=
  ⟨by decide, relax_clusters_member_spec cexParams cexPts 0 (by decide)⟩

end UmapCV
